import Mathlib

/-!
Shallow embedding of `src/reject_methods.h` (PyEmir / numina pixel-stack
combination core): the three rejection strategies `RejectNone`,
`RejectMinMax`, `RejectSigmaClip` and the dynamic-dispatch adaptor
`RejectMethodAdaptor`, together with theorems settling the specification
claims about them.

Modelling conventions:
* A pixel sample set is a pair of equal-length lists (values, weights) of
  scalars; scalars are modelled generically by a `LinearOrderedField` and
  instantiated with `ℚ` for concrete computations (the C++ `double`
  arithmetic is modelled exactly, not with floating point).
* The external `CentralTendency` estimator (a template parameter in the
  source) is a function `List α → List α → α × α` taking the value range
  and the weight range and returning (center, dispersion).
* The C library function `sqrt` applied by `RejectSigmaClip` is modelled
  by an explicit function parameter `sqrtA : α → α`; on `ℚ` the concrete
  instantiation `ratSqrt` is exact on perfect squares, which is all the
  concrete computations below need.
* The in-place `std::partition` over zip iterators is modelled by the
  stable partition `filter p ++ filter (not p)` of the prefix of the pair
  list that the iterator range designates; this is one of the permutations
  the C++ partition contract allows.
-/

namespace Numina

open List

variable {α : Type} [LinearOrderedField α]

/-- The contract of the external CentralTendency collaborator
(spec section 4.1): a value range and a parallel weight range go in,
(center, dispersion) comes out. -/
def Estimator (α : Type) : Type := List α → List α → α × α

/-! RejectNone (reject_methods.h, lines 34-50) -/

/-- The `RejectNone<CentralTendency>` strategy: only configuration is the
estimator held in `m_central`. -/
structure RejectNone (α : Type) where
  m_central : Estimator α

/-- Embedding of `RejectNone::combine`: the estimator is applied to the
full unfiltered range and the three output slots receive
(center, dispersion, distance(begin, end)). -/
def RejectNone.combine (r : RejectNone α) (values weights : List α) :
    α × α × ℕ :=
  let p := r.m_central values weights
  (p.1, p.2, values.length)

/-! RejectMinMax (reject_methods.h, lines 52-87) -/

/-- The `RejectMinMax<CentralTendency>` strategy: estimator plus the counts
`m_nmin` and `m_nmax` of lowest and highest samples to discard. -/
structure RejectMinMax (α : Type) where
  m_central : Estimator α
  m_nmin : ℕ
  m_nmax : ℕ

/-- Modelled from the spec: `reject_min_max` is declared in `operations.h`,
which is not part of the given sources. Per spec section 4.3 it partitions
the zipped (value, weight) pairs by value so that exactly the `nmin`
smallest and `nmax` largest values are separated out at the two ends, and
returns the iterator pair delimiting the kept middle range. The embedding
returns the post-call array layout (here: value-sorted, a layout meeting
the contract, with ties kept stable) together with the two indices
(first, second) of the kept range. -/
def reject_min_max (nmin nmax : ℕ) (l : List (α × α)) :
    List (α × α) × ℕ × ℕ :=
  let s := l.insertionSort (fun a b => a.1 ≤ b.1)
  (s, nmin, s.length - nmax)

/-- Embedding of `RejectMinMax::combine`: run `reject_min_max` on the
zipped pairs, write `result.second - result.first` into the count slot and
the estimate over the kept middle range into the other two. -/
def RejectMinMax.combine (r : RejectMinMax α) (values weights : List α) :
    α × α × ℕ :=
  let res := reject_min_max r.m_nmin r.m_nmax (values.zip weights)
  let kept := (res.1.drop res.2.1).take (res.2.2 - res.2.1)
  let p := r.m_central (kept.map Prod.fst) (kept.map Prod.snd)
  (p.1, p.2, res.2.2 - res.2.1)

/-- The kept (value, weight) pairs of a `RejectMinMax::combine` call. -/
def RejectMinMax.keptPairs (r : RejectMinMax α) (values weights : List α) :
    List (α × α) :=
  let res := reject_min_max r.m_nmin r.m_nmax (values.zip weights)
  (res.1.drop res.2.1).take (res.2.2 - res.2.1)

/-- The contents of the caller-owned sequences after a
`RejectMinMax::combine` call: `reject_min_max` partitions the zipped
ranges in place, so the sequences hold its final layout. -/
def RejectMinMax.finalPairs (r : RejectMinMax α) (values weights : List α) :
    List (α × α) :=
  (reject_min_max r.m_nmin r.m_nmax (values.zip weights)).1

/-! RejectSigmaClip (reject_methods.h, lines 89-137) -/

/-- The `RejectSigmaClip<CentralTendency>` strategy: estimator plus the
band multipliers `m_low` and `m_high`. -/
structure RejectSigmaClip (α : Type) where
  m_central : Estimator α
  m_low : α
  m_high : α

/-- The partition predicate built in `RejectSigmaClip::combine` from the
current mean and standard deviation, exactly as the functional composition
in the source evaluates: `compose2` of `logical_and` applied to
`bind2nd(less, c_mean - c_std*m_low)` on the first pair component and to
`bind1st(greater, c_mean + c_std*m_high)` on the first pair component,
that is `(x.first < c_mean - c_std*m_low) && (c_mean + c_std*m_high > x.first)`. -/
def sigmaClipKeep (c_mean c_std m_low m_high : α) (x : α × α) : Bool :=
  decide (x.1 < c_mean - c_std * m_low) &&
    decide (c_mean + c_std * m_high > x.1)

/-- The local state of the do-while loop in `RejectSigmaClip::combine`:
the pair list underlying the zipped ranges (`begin`/`weights` storage),
the index `ned` of the partition boundary iterator, and the locals
`c_size`, `c_mean`, `c_std`, `delta`. -/
structure SCState (α : Type) where
  l : List (α × α)
  ned : ℕ
  c_size : ℕ
  c_mean : α
  c_std : α
  delta : ℤ

/-- Embedding of one execution of the do-while body of
`RejectSigmaClip::combine`:
estimate over `[begin, begin + c_size)`, take `sqrt` of the dispersion,
partition `[beg, ned)` by `sigmaClipKeep`, set
`delta = c_size - (ned - beg)` and then `c_size = end - begin`
(the full length, as the source does). -/
def sigmaClipBody (est : Estimator α) (sqrtA : α → α) (m_low m_high : α)
    (s : SCState α) : SCState α :=
  let r := est ((s.l.take s.c_size).map Prod.fst)
    ((s.l.take s.c_size).map Prod.snd)
  let m := r.1
  let sd := sqrtA r.2
  let kept := (s.l.take s.ned).filter (sigmaClipKeep m sd m_low m_high)
  let rej := (s.l.take s.ned).filter
    (fun x => !sigmaClipKeep m sd m_low m_high x)
  ⟨kept ++ rej ++ s.l.drop s.ned, kept.length, s.l.length, m, sd,
    (s.c_size : ℤ) - (kept.length : ℤ)⟩

/-- Embedding of the do-while loop of `RejectSigmaClip::combine`: run the
body, exit when `delta` is zero, otherwise loop. The C++ loop has no fuel;
`none` means the fuel was exhausted without the loop having exited, so a
result `some s` for some fuel is exactly a terminating C++ execution. -/
def sigmaClipRun (est : Estimator α) (sqrtA : α → α) (m_low m_high : α) :
    ℕ → SCState α → Option (SCState α)
  | 0, _ => none
  | fuel + 1, s =>
    let s' := sigmaClipBody est sqrtA m_low m_high s
    if s'.delta = 0 then some s' else
      sigmaClipRun est sqrtA m_low m_high fuel s'

/-- The initial loop state of `RejectSigmaClip::combine`:
`beg = zip(begin, weights)`, `ned = zip(end, weights + (end - begin))`,
`c_size = end - begin`, locals zero. -/
def sigmaClipInit (values weights : List α) : SCState α :=
  ⟨values.zip weights, (values.zip weights).length,
    (values.zip weights).length, 0, 0, 0⟩

/-- Embedding of `RejectSigmaClip::combine` with the given fuel: on
termination the output slots receive `(c_mean, c_std, c_size)`. -/
def RejectSigmaClip.combine (r : RejectSigmaClip α) (sqrtA : α → α)
    (fuel : ℕ) (values weights : List α) : Option (α × α × ℕ) :=
  match sigmaClipRun r.m_central sqrtA r.m_low r.m_high fuel
      (sigmaClipInit values weights) with
  | none => none
  | some s => some (s.c_mean, s.c_std, s.c_size)

/-! RejectMethodAdaptor (reject_methods.h, lines 160-175) -/

/-- The `RejectMethod` runtime interface: the uniform `combine` signature
that the polymorphic facade exposes (method_base.h is not in the sources;
its shape is fixed by the override in `RejectMethodAdaptor`). A strategy
is represented by its combine function. -/
def RejectMethodCombine (α : Type) : Type := List α → List α → α × α × ℕ

/-- The `RejectMethodAdaptor<MRNT>` wrapper holding the wrapped strategy
`m_rn`, represented by the combine behaviour of that strategy. -/
structure RejectMethodAdaptor (α : Type) where
  m_rn : RejectMethodCombine α

/-- Embedding of `RejectMethodAdaptor::combine`: it forwards
`(begin, end, weights, results)` to `m_rn.combine` unchanged. -/
def RejectMethodAdaptor.combine (a : RejectMethodAdaptor α)
    (values weights : List α) : α × α × ℕ :=
  a.m_rn values weights

/-! Concrete instantiation over ℚ -/

/-- Arithmetic mean and population variance over `ℚ`, ignoring weights:
the concrete estimator the spec uses in its scenarios (section 8). On the
empty list both components are 0 (division by zero in `ℚ`). -/
def meanVar : Estimator ℚ := fun values _ =>
  let n : ℚ := (values.length : ℚ)
  let m := values.sum / n
  (m, (values.map (fun x => (x - m) ^ 2)).sum / n)

/-! Loop lemmas for RejectSigmaClip -/

theorem sigmaClipBody_l_perm (est : Estimator α) (sqrtA : α → α)
    (m_low m_high : α) (s : SCState α) :
    (sigmaClipBody est sqrtA m_low m_high s).l ~ s.l := by
  show _ ++ _ ++ _ ~ _
  calc _ ~ s.l.take s.ned ++ s.l.drop s.ned :=
        (List.filter_append_perm _ _).append_right _
    _ = s.l := List.take_append_drop _ _

theorem sigmaClipBody_l_length (est : Estimator α) (sqrtA : α → α)
    (m_low m_high : α) (s : SCState α) :
    (sigmaClipBody est sqrtA m_low m_high s).l.length = s.l.length :=
  (sigmaClipBody_l_perm est sqrtA m_low m_high s).length_eq

theorem sigmaClipBody_ned_le (est : Estimator α) (sqrtA : α → α)
    (m_low m_high : α) (s : SCState α) :
    (sigmaClipBody est sqrtA m_low m_high s).ned ≤
      min s.ned s.l.length := by
  show (List.filter _ _).length ≤ _
  calc (List.filter _ _).length ≤ (s.l.take s.ned).length :=
        List.length_filter_le _ _
    _ = min s.ned s.l.length := s.l.length_take s.ned

theorem sigmaClipBody_c_size (est : Estimator α) (sqrtA : α → α)
    (m_low m_high : α) (s : SCState α) :
    (sigmaClipBody est sqrtA m_low m_high s).c_size = s.l.length := rfl

theorem sigmaClipBody_delta (est : Estimator α) (sqrtA : α → α)
    (m_low m_high : α) (s : SCState α) :
    (sigmaClipBody est sqrtA m_low m_high s).delta =
      (s.c_size : ℤ) - ((sigmaClipBody est sqrtA m_low m_high s).ned : ℤ) :=
  rfl

/-- Non-termination of the sigma-clip loop: from any state whose partition
boundary is strictly inside the array (some sample already rejected) and
whose `c_size` holds the full length (as the source always re-assigns it),
the do-while loop never exits, whatever the estimator: `delta` can never
return to zero because `c_size` is reset to the full length while the kept
range can only shrink. -/
theorem sigmaClipRun_none (est : Estimator α) (sqrtA : α → α)
    (m_low m_high : α) :
    ∀ (fuel : ℕ) (s : SCState α), s.c_size = s.l.length →
      s.ned < s.l.length →
      sigmaClipRun est sqrtA m_low m_high fuel s = none := by
  intro fuel
  induction fuel with
  | zero => intro s _ _; rfl
  | succ n ih =>
    intro s hcs hned
    have hle := sigmaClipBody_ned_le est sqrtA m_low m_high s
    have hlen := sigmaClipBody_l_length est sqrtA m_low m_high s
    have hned' : (sigmaClipBody est sqrtA m_low m_high s).ned <
        (sigmaClipBody est sqrtA m_low m_high s).l.length := by
      calc (sigmaClipBody est sqrtA m_low m_high s).ned
          ≤ min s.ned s.l.length := hle
        _ ≤ s.ned := min_le_left _ _
        _ < s.l.length := hned
        _ = _ := hlen.symm
    have hdelta : (sigmaClipBody est sqrtA m_low m_high s).delta ≠ 0 := by
      rw [sigmaClipBody_delta, hcs]
      have : ((sigmaClipBody est sqrtA m_low m_high s).ned : ℤ) <
          (s.l.length : ℤ) := by exact_mod_cast hlen ▸ hned'
      omega
    show (if _ then _ else _) = none
    rw [if_neg hdelta]
    exact ih _ (by rw [sigmaClipBody_c_size, hlen]) hned'

/-- When the sigma-clip loop does exit, it exits after its very first
body execution: any rejection makes termination impossible
(`sigmaClipRun_none`), so a returned state is the first body result and
has `delta = 0`. -/
theorem sigmaClipRun_eq_body (est : Estimator α) (sqrtA : α → α)
    (m_low m_high : α) (fuel : ℕ) (v w : List α) (s : SCState α)
    (h : sigmaClipRun est sqrtA m_low m_high fuel
      (sigmaClipInit v w) = some s) :
    s = sigmaClipBody est sqrtA m_low m_high (sigmaClipInit v w) ∧
      s.delta = 0 := by
  cases fuel with
  | zero => exact absurd h (by simp [sigmaClipRun])
  | succ n =>
    unfold sigmaClipRun at h
    by_cases hd : (sigmaClipBody est sqrtA m_low m_high
        (sigmaClipInit v w)).delta = 0
    · rw [if_pos hd] at h
      cases h
      exact ⟨rfl, hd⟩
    · rw [if_neg hd] at h
      have hlen := sigmaClipBody_l_length est sqrtA m_low m_high
        (sigmaClipInit v w)
      have hle := sigmaClipBody_ned_le est sqrtA m_low m_high
        (sigmaClipInit v w)
      have hle2 : (sigmaClipBody est sqrtA m_low m_high
          (sigmaClipInit v w)).ned ≤ (v.zip w).length := by
        simpa [sigmaClipInit] using hle
      have hne : (sigmaClipBody est sqrtA m_low m_high
          (sigmaClipInit v w)).ned ≠ (v.zip w).length := by
        intro he
        apply hd
        rw [sigmaClipBody_delta, he]
        show ((v.zip w).length : ℤ) - _ = 0
        omega
      have hlen2 : (sigmaClipBody est sqrtA m_low m_high
          (sigmaClipInit v w)).l.length = (v.zip w).length := hlen
      have hlt : (sigmaClipBody est sqrtA m_low m_high
          (sigmaClipInit v w)).ned <
          (sigmaClipBody est sqrtA m_low m_high
            (sigmaClipInit v w)).l.length := by
        rw [hlen2]
        omega
      rw [sigmaClipRun_none est sqrtA m_low m_high n _
        ((sigmaClipBody_c_size est sqrtA m_low m_high
          (sigmaClipInit v w)).trans hlen.symm) hlt] at h
      exact absurd h (by simp)

/-- Shape of the first body execution: starting from the initial state the
estimate ranges over the whole zipped list and the partition ranges over
the whole zipped list. -/
theorem sigmaClipBody_init (est : Estimator α) (sqrtA : α → α)
    (m_low m_high : α) (v w : List α) :
    sigmaClipBody est sqrtA m_low m_high (sigmaClipInit v w) =
      ⟨(v.zip w).filter (sigmaClipKeep
          (est ((v.zip w).map Prod.fst) ((v.zip w).map Prod.snd)).1
          (sqrtA (est ((v.zip w).map Prod.fst)
            ((v.zip w).map Prod.snd)).2) m_low m_high) ++
        (v.zip w).filter (fun x => !sigmaClipKeep
          (est ((v.zip w).map Prod.fst) ((v.zip w).map Prod.snd)).1
          (sqrtA (est ((v.zip w).map Prod.fst)
            ((v.zip w).map Prod.snd)).2) m_low m_high x),
        ((v.zip w).filter (sigmaClipKeep
          (est ((v.zip w).map Prod.fst) ((v.zip w).map Prod.snd)).1
          (sqrtA (est ((v.zip w).map Prod.fst)
            ((v.zip w).map Prod.snd)).2) m_low m_high)).length,
        (v.zip w).length,
        (est ((v.zip w).map Prod.fst) ((v.zip w).map Prod.snd)).1,
        sqrtA (est ((v.zip w).map Prod.fst) ((v.zip w).map Prod.snd)).2,
        ((v.zip w).length : ℤ) - (((v.zip w).filter (sigmaClipKeep
          (est ((v.zip w).map Prod.fst) ((v.zip w).map Prod.snd)).1
          (sqrtA (est ((v.zip w).map Prod.fst)
            ((v.zip w).map Prod.snd)).2) m_low m_high)).length : ℤ)⟩ := by
  simp only [sigmaClipBody, sigmaClipInit, List.take_length,
    List.drop_length, List.append_nil]

/-- When the loop of `RejectSigmaClip::combine` exits, the last body
execution kept every sample: the final state holds the unchanged zipped
input, the boundary at the full length, `c_size` the full length, and the
estimate of the full range in `c_mean` and `c_std`. -/
theorem sigmaClipRun_terminal (est : Estimator α) (sqrtA : α → α)
    (m_low m_high : α) (fuel : ℕ) (v w : List α) (s : SCState α)
    (h : sigmaClipRun est sqrtA m_low m_high fuel
      (sigmaClipInit v w) = some s) :
    s.l = v.zip w ∧ s.ned = (v.zip w).length ∧
      s.c_size = (v.zip w).length ∧
      s.c_mean = (est ((v.zip w).map Prod.fst)
        ((v.zip w).map Prod.snd)).1 ∧
      s.c_std = sqrtA ((est ((v.zip w).map Prod.fst)
        ((v.zip w).map Prod.snd)).2) := by
  obtain ⟨hs, hd⟩ := sigmaClipRun_eq_body est sqrtA m_low m_high fuel v w s h
  rw [sigmaClipBody_init] at hs
  subst hs
  have hlen : (((v.zip w)).filter (sigmaClipKeep
      (est ((v.zip w).map Prod.fst) ((v.zip w).map Prod.snd)).1
      (sqrtA (est ((v.zip w).map Prod.fst)
        ((v.zip w).map Prod.snd)).2) m_low m_high)).length =
      (v.zip w).length := by
    have := hd
    simp only at this
    omega
  have hkept := ((v.zip w).filter_sublist).eq_of_length hlen
  have hall := List.filter_eq_self.mp hkept
  have hrej : (v.zip w).filter (fun x => !sigmaClipKeep
      (est ((v.zip w).map Prod.fst) ((v.zip w).map Prod.snd)).1
      (sqrtA (est ((v.zip w).map Prod.fst)
        ((v.zip w).map Prod.snd)).2) m_low m_high x) = [] := by
    rw [List.filter_eq_nil_iff]
    intro a ha
    simp [hall a ha]
  refine ⟨?_, ?_, rfl, rfl, rfl⟩
  · show _ ++ _ = _
    rw [hkept, hrej, List.append_nil]
  · exact hlen

/-- Integer square root (rounded down), in a form the kernel can
evaluate. -/
def natSqrt (n : ℕ) : ℕ := Nat.findGreatest (fun k => k * k ≤ n) n

/-- Exact rational square root model of the C `sqrt` for the concrete
computations: correct on perfect squares (numerator and denominator
squares), which is all the concrete inputs below use. -/
def ratSqrt (q : ℚ) : ℚ := (natSqrt q.num.toNat : ℚ) / (natSqrt q.den : ℚ)

/-! Concrete loop computations used by the claim theorems -/

/-- On the two equal samples `{1, 1}` the first estimate is `(1, 0)`, the
degenerate band test `1 < 1` rejects both samples, and `delta = 2`. -/
theorem sigmaClipBody_ones :
    sigmaClipBody meanVar ratSqrt 1 1 (sigmaClipInit [(1:ℚ), 1] [1, 1]) =
      ⟨[(1, 1), (1, 1)], 0, 2, 1, 0, 2⟩ := by
  norm_num [sigmaClipBody, sigmaClipInit, meanVar, ratSqrt, natSqrt,
    sigmaClipKeep, Nat.findGreatest]

/-- With `lowSigma = -2`, `highSigma = 2` the set `{0, 1}` keeps both
samples in the first pass (mean `1/2`, sigma `1/2`, both tests pass), so
the loop exits at once. -/
theorem sigmaClipRun_zero_one :
    sigmaClipRun meanVar ratSqrt (-2) 2 1
        (sigmaClipInit [(0:ℚ), 1] [1, 1]) =
      some ⟨[(0, 1), (1, 1)], 2, 2, 1/2, 1/2, 0⟩ := by
  norm_num [sigmaClipRun, sigmaClipBody, sigmaClipInit, meanVar, ratSqrt,
    natSqrt, sigmaClipKeep, Nat.findGreatest]

/-- On `{3, 9, 11, 17}` the first estimate is mean `10`, variance `25`,
sigma `5`; the first partition keeps exactly the pair `(3, 1)`. -/
theorem sigmaClipBody_band_example :
    sigmaClipBody meanVar ratSqrt 1 1
        (sigmaClipInit [(3:ℚ), 9, 11, 17] [1, 1, 1, 1]) =
      ⟨[(3, 1), (9, 1), (11, 1), (17, 1)], 1, 4, 10, 5, 3⟩ := by
  norm_num [sigmaClipBody, sigmaClipInit, meanVar, ratSqrt, natSqrt,
    sigmaClipKeep, Nat.findGreatest]

/-- On the sample set `{1, 1}` the sigma-clip loop never exits, whatever
the fuel. -/
theorem sigmaClipRun_ones_none (fuel : ℕ) :
    sigmaClipRun meanVar ratSqrt 1 1 fuel
      (sigmaClipInit [(1:ℚ), 1] [1, 1]) = none := by
  cases fuel with
  | zero => rfl
  | succ n =>
    unfold sigmaClipRun
    rw [sigmaClipBody_ones]
    rw [if_neg (by decide)]
    exact sigmaClipRun_none meanVar ratSqrt 1 1 n _ rfl (by decide)

/-! Claim theorems -/

/-- C1: the claimed termination of `RejectSigmaClip::combine` fails on the
code. Because the loop body re-assigns `c_size = end - begin` (the full
input length) instead of the surviving count, `delta` can never return to
zero once any sample has been rejected, and the do-while loop runs
forever. On the concrete sample set `{1, 1}` with unit weights and
`lowSigma = highSigma = 1` (mean 1, sigma 0), the first pass rejects both
samples and `combine` diverges: for every fuel bound the loop is still
running, while the claim promises termination within `|S| = 2`
iterations. -/
theorem rejectSigmaClip_ones_diverges (fuel : ℕ) :
    RejectSigmaClip.combine ⟨meanVar, 1, 1⟩ ratSqrt fuel [1, 1] [1, 1] =
      none := by
  unfold RejectSigmaClip.combine
  rw [sigmaClipRun_ones_none fuel]

/-- C2: the strict acceptance band `mean - lowSigma*sigma < v <
mean + highSigma*sigma` claimed by the spec is not what the partition
predicate tests. The functional composition binds the lower bound with
`bind2nd(less, ...)`, so the first conjunct is `v < mean - sigma*lowSigma`
rather than `v > mean - sigma*lowSigma`, contradicting the inline comment
of the source. Concretely, with the estimate `(mean, sigma) = (10, 5)`
computed on `{3, 9, 11, 17}` and `lowSigma = highSigma = 1`: the sample 9
lies strictly inside the band `(5, 15)` yet `sigmaClipKeep` rejects it,
and the first partition keeps exactly the sample 3, which lies below the
lower bound. -/
theorem rejectSigmaClip_band_flipped :
    sigmaClipKeep (10:ℚ) 5 1 1 (9, 1) = false ∧
    (10:ℚ) - 5 * 1 < 9 ∧ (9:ℚ) < 10 + 5 * 1 ∧
    (sigmaClipBody meanVar ratSqrt 1 1
      (sigmaClipInit [(3:ℚ), 9, 11, 17] [1, 1, 1, 1])).c_mean = 10 ∧
    (sigmaClipBody meanVar ratSqrt 1 1
      (sigmaClipInit [(3:ℚ), 9, 11, 17] [1, 1, 1, 1])).c_std = 5 ∧
    ((sigmaClipBody meanVar ratSqrt 1 1
      (sigmaClipInit [(3:ℚ), 9, 11, 17] [1, 1, 1, 1])).l.take
      (sigmaClipBody meanVar ratSqrt 1 1
        (sigmaClipInit [(3:ℚ), 9, 11, 17] [1, 1, 1, 1])).ned) =
      [((3:ℚ), (1:ℚ))] := by
  refine ⟨by norm_num [sigmaClipKeep], by norm_num, by norm_num, ?_, ?_, ?_⟩
  · rw [sigmaClipBody_band_example]
  · rw [sigmaClipBody_band_example]
  · rw [sigmaClipBody_band_example]
    rfl

/-- C3: whenever the loop of `RejectSigmaClip::combine` terminates, the
three output slots are consistent with the final kept set: `results[2]`
(`c_size`) equals the number of samples in the final kept range
`[beg, ned)`, and `results[0]`/`results[1]` come from the last completed
estimate, which ranged exactly over that kept set. -/
theorem rejectSigmaClip_terminal_outputs (est : Estimator α)
    (sqrtA : α → α) (m_low m_high : α) (fuel : ℕ) (v w : List α)
    (s : SCState α)
    (h : sigmaClipRun est sqrtA m_low m_high fuel
      (sigmaClipInit v w) = some s) :
    RejectSigmaClip.combine ⟨est, m_low, m_high⟩ sqrtA fuel v w =
        some (s.c_mean, s.c_std, s.c_size) ∧
      s.c_size = (s.l.take s.ned).length ∧
      s.c_mean = (est ((s.l.take s.ned).map Prod.fst)
        ((s.l.take s.ned).map Prod.snd)).1 ∧
      s.c_std = sqrtA ((est ((s.l.take s.ned).map Prod.fst)
        ((s.l.take s.ned).map Prod.snd)).2) := by
  obtain ⟨hl, hned, hcs, hm, hsd⟩ :=
    sigmaClipRun_terminal est sqrtA m_low m_high fuel v w s h
  have htake : s.l.take s.ned = v.zip w := by
    rw [hned, ← hl, List.take_length]
  refine ⟨?_, ?_, ?_, ?_⟩
  · unfold RejectSigmaClip.combine
    rw [h]
  · rw [htake, hcs]
  · rw [htake, hm]
  · rw [htake, hsd]

/-- C3 witness: on the set `{0, 1}` with band multipliers `(-2, 2)` the
loop terminates after one pass keeping both samples, and the outputs are
`(1/2, 1/2, 2)`, the estimate over the kept set of size 2. -/
theorem rejectSigmaClip_terminal_outputs_witness :
    RejectSigmaClip.combine ⟨meanVar, -2, 2⟩ ratSqrt 1 [0, 1] [1, 1] =
        some (1/2, 1/2, 2) ∧
      (2 : ℕ) = ([((0:ℚ), (1:ℚ)), (1, 1)].take 2).length ∧
      (1/2 : ℚ) = (meanVar (([((0:ℚ), (1:ℚ)), (1, 1)].take 2).map Prod.fst)
        (([((0:ℚ), (1:ℚ)), (1, 1)].take 2).map Prod.snd)).1 := by
  obtain ⟨h1, h2, h3, _⟩ := rejectSigmaClip_terminal_outputs meanVar
    ratSqrt (-2) 2 1 [0, 1] [1, 1]
    ⟨[(0, 1), (1, 1)], 2, 2, 1/2, 1/2, 0⟩ sigmaClipRun_zero_one
  exact ⟨h1, h2, h3⟩

/-- C7: dispersion units differ between the strategies. On termination,
`RejectSigmaClip::combine` writes into `results[1]` the square root of the
second component returned by the last `CentralTendency` estimate (which
ranged over the whole final list), while `RejectNone::combine` and
`RejectMinMax::combine` write the second component of their estimate
through unchanged. -/
theorem dispersion_unit_mismatch (est : Estimator α) (sqrtA : α → α)
    (m_low m_high : α) (fuel : ℕ) (v w : List α) (s : SCState α)
    (nmin nmax : ℕ)
    (h : sigmaClipRun est sqrtA m_low m_high fuel
      (sigmaClipInit v w) = some s) :
    (RejectSigmaClip.combine ⟨est, m_low, m_high⟩ sqrtA fuel v w =
        some (s.c_mean, s.c_std, s.c_size) ∧
      s.c_std = sqrtA ((est ((v.zip w).map Prod.fst)
        ((v.zip w).map Prod.snd)).2)) ∧
    (RejectNone.combine ⟨est⟩ v w).2.1 = (est v w).2 ∧
    (RejectMinMax.combine ⟨est, nmin, nmax⟩ v w).2.1 =
      (est ((RejectMinMax.keptPairs ⟨est, nmin, nmax⟩ v w).map Prod.fst)
        ((RejectMinMax.keptPairs ⟨est, nmin, nmax⟩ v w).map Prod.snd)).2 := by
  obtain ⟨_, _, _, _, hsd⟩ :=
    sigmaClipRun_terminal est sqrtA m_low m_high fuel v w s h
  refine ⟨⟨?_, hsd⟩, rfl, rfl⟩
  unfold RejectSigmaClip.combine
  rw [h]

/-- C7 witness: on `{0, 1}` with band `(-2, 2)` the sigma-clip output
dispersion is `1/2`, the square root of the variance `1/4` returned by the
estimator, while RejectNone and RejectMinMax return the variance slot of
their estimator unchanged. -/
theorem dispersion_unit_mismatch_witness :
    (RejectSigmaClip.combine ⟨meanVar, -2, 2⟩ ratSqrt 1 [0, 1] [1, 1] =
        some (1/2, 1/2, 2) ∧
      (1/2 : ℚ) = ratSqrt ((meanVar (([((0:ℚ), (1:ℚ)), (1, 1)]).map Prod.fst)
        (([((0:ℚ), (1:ℚ)), (1, 1)]).map Prod.snd)).2)) ∧
    (RejectNone.combine ⟨meanVar⟩ [(0:ℚ), 1] [1, 1]).2.1 =
      (meanVar [(0:ℚ), 1] [1, 1]).2 ∧
    (RejectMinMax.combine ⟨meanVar, 0, 0⟩ [(0:ℚ), 1] [1, 1]).2.1 =
      (meanVar ((RejectMinMax.keptPairs ⟨meanVar, 0, 0⟩
          [(0:ℚ), 1] [1, 1]).map Prod.fst)
        ((RejectMinMax.keptPairs ⟨meanVar, 0, 0⟩
          [(0:ℚ), 1] [1, 1]).map Prod.snd)).2 :=
  dispersion_unit_mismatch meanVar ratSqrt (-2) 2 1 [0, 1] [1, 1]
    ⟨[(0, 1), (1, 1)], 2, 2, 1/2, 1/2, 0⟩ 0 0 sigmaClipRun_zero_one

/-- C8: the result of a terminating `RejectSigmaClip::combine` is a fixed
point. Termination is only possible when the very first partition keeps
every sample, so the final kept set is the input itself; running `combine`
on the values and weights of the returned kept set therefore reaches the
same final state: same kept set, same `countUsed`, same outputs. -/
theorem rejectSigmaClip_fixed_point (est : Estimator α) (sqrtA : α → α)
    (m_low m_high : α) (fuel : ℕ) (v w : List α) (s : SCState α)
    (h : sigmaClipRun est sqrtA m_low m_high fuel
      (sigmaClipInit v w) = some s) :
    sigmaClipRun est sqrtA m_low m_high fuel
        (sigmaClipInit ((s.l.take s.ned).map Prod.fst)
          ((s.l.take s.ned).map Prod.snd)) = some s ∧
      RejectSigmaClip.combine ⟨est, m_low, m_high⟩ sqrtA fuel
          ((s.l.take s.ned).map Prod.fst) ((s.l.take s.ned).map Prod.snd) =
        RejectSigmaClip.combine ⟨est, m_low, m_high⟩ sqrtA fuel v w := by
  obtain ⟨hl, hned, _, _, _⟩ :=
    sigmaClipRun_terminal est sqrtA m_low m_high fuel v w s h
  have htake : s.l.take s.ned = v.zip w := by
    rw [hned, ← hl, List.take_length]
  have hinit : sigmaClipInit ((s.l.take s.ned).map Prod.fst)
      ((s.l.take s.ned).map Prod.snd) = sigmaClipInit v w := by
    rw [htake]
    unfold sigmaClipInit
    rw [show ((v.zip w).map Prod.fst).zip ((v.zip w).map Prod.snd) =
      v.zip w by simpa [List.unzip_eq_map] using List.zip_unzip (v.zip w)]
  refine ⟨?_, ?_⟩
  · rw [hinit]
    exact h
  · unfold RejectSigmaClip.combine
    rw [hinit, h]

/-- C8 witness: on `{0, 1}` with band `(-2, 2)` the loop keeps both
samples; re-running combine on the kept set `{0, 1}` returns the same
state and the same outputs. -/
theorem rejectSigmaClip_fixed_point_witness :
    sigmaClipRun meanVar ratSqrt (-2) 2 1
        (sigmaClipInit ([((0:ℚ), (1:ℚ)), (1, 1)].map Prod.fst)
          ([((0:ℚ), (1:ℚ)), (1, 1)].map Prod.snd)) =
      some ⟨[(0, 1), (1, 1)], 2, 2, 1/2, 1/2, 0⟩ ∧
    RejectSigmaClip.combine ⟨meanVar, -2, 2⟩ ratSqrt 1
        ([((0:ℚ), (1:ℚ)), (1, 1)].map Prod.fst)
        ([((0:ℚ), (1:ℚ)), (1, 1)].map Prod.snd) =
      RejectSigmaClip.combine ⟨meanVar, -2, 2⟩ ratSqrt 1 [0, 1] [1, 1] :=
  rejectSigmaClip_fixed_point meanVar ratSqrt (-2) 2 1 [0, 1] [1, 1]
    ⟨[(0, 1), (1, 1)], 2, 2, 1/2, 1/2, 0⟩ sigmaClipRun_zero_one

/-- C10: `RejectSigmaClip::combine` only permutes whole (value, weight)
pairs. Every execution of the loop body leaves the multiset of pairs in
the caller-owned storage unchanged (the partition only reorders them), and
on termination the pair multiset equals the zipped input multiset, with
every value still carrying its original weight. -/
theorem rejectSigmaClip_pairs_preserved (est : Estimator α)
    (sqrtA : α → α) (m_low m_high : α) (fuel : ℕ) (v w : List α)
    (s : SCState α)
    (h : sigmaClipRun est sqrtA m_low m_high fuel
      (sigmaClipInit v w) = some s) :
    ((s.l : Multiset (α × α)) = ↑(v.zip w)) ∧
    ∀ t : SCState α,
      ((sigmaClipBody est sqrtA m_low m_high t).l : Multiset (α × α)) =
        ↑t.l := by
  refine ⟨?_, fun t => Multiset.coe_eq_coe.mpr
    (sigmaClipBody_l_perm est sqrtA m_low m_high t)⟩
  obtain ⟨hl, _, _, _, _⟩ :=
    sigmaClipRun_terminal est sqrtA m_low m_high fuel v w s h
  rw [hl]

/-- C10 witness: on `{0, 1}` with band `(-2, 2)` the final pair multiset
is the input pair multiset, and one body step on a reversed two-sample
state keeps its pair multiset. -/
theorem rejectSigmaClip_pairs_preserved_witness :
    ((⟨[((0:ℚ), (1:ℚ)), (1, 1)], 2, 2, 1/2, 1/2, 0⟩ : SCState ℚ).l :
        Multiset (ℚ × ℚ)) = ↑([(0:ℚ), 1].zip [(1:ℚ), 1]) ∧
    ((sigmaClipBody meanVar ratSqrt (-2) 2
        ⟨[((1:ℚ), (5:ℚ)), (0, 7)], 2, 2, 0, 0, 0⟩).l :
          Multiset (ℚ × ℚ)) = ↑[((1:ℚ), (5:ℚ)), (0, 7)] :=
  ⟨(rejectSigmaClip_pairs_preserved meanVar ratSqrt (-2) 2 1 [0, 1] [1, 1]
      ⟨[(0, 1), (1, 1)], 2, 2, 1/2, 1/2, 0⟩ sigmaClipRun_zero_one).1,
    (rejectSigmaClip_pairs_preserved meanVar ratSqrt (-2) 2 1 [0, 1] [1, 1]
      ⟨[(0, 1), (1, 1)], 2, 2, 1/2, 1/2, 0⟩ sigmaClipRun_zero_one).2
      ⟨[((1:ℚ), (5:ℚ)), (0, 7)], 2, 2, 0, 0, 0⟩⟩

/-- C6: `RejectNone::combine` writes exactly the pair returned by the
estimator on the full unfiltered sample set into the center and dispersion
slots and `|S|` into the count slot, for every sample set including the
empty one; the triple below is everything the call produces. -/
theorem rejectNone_combine_spec (est : Estimator α) (values weights : List α) :
    RejectNone.combine ⟨est⟩ values weights =
      ((est values weights).1, (est values weights).2, values.length) :=
  rfl

/-- C9: `RejectMethodAdaptor::combine` forwards its four arguments to the
wrapped strategy and does nothing else: it produces exactly the outputs of
the wrapped combine on the same input. -/
theorem rejectMethodAdaptor_transparent (rc : RejectMethodCombine α)
    (values weights : List α) :
    RejectMethodAdaptor.combine ⟨rc⟩ values weights = rc values weights :=
  rfl

/-- C4 counterexample: the caller-owned sequences are not left unchanged
element for element. `RejectMinMax::combine` with `nmin = nmax = 1` on
values `[5, 3, 9, 1, 7]` (unit weights) partitions the zipped ranges in
place to separate the smallest and largest value, so after the call the
sequences no longer hold the original order: the pair `(5, 1)` is no
longer first. -/
theorem caller_sequences_reordered :
    RejectMinMax.finalPairs ⟨meanVar, 1, 1⟩ [5, 3, 9, 1, 7]
        [1, 1, 1, 1, 1] ≠
      [((5:ℚ), (1:ℚ)), (3, 1), (9, 1), (1, 1), (7, 1)] := by
  norm_num [RejectMinMax.finalPairs, reject_min_max, List.insertionSort,
    List.orderedInsert]

/-- C4 amended: the strategies never insert, drop or alter a
(value, weight) pair and never re-pair a value with a different weight,
but the in-place partitioning of `RejectMinMax` and `RejectSigmaClip` may
reorder the pairs held in the sequences of the caller: the post-call contents
are a permutation (multiset-equal) of the zipped input, while `RejectNone`
computes its outputs without touching the sequences at all. -/
theorem caller_sequences_permuted (est : Estimator α) (nmin nmax : ℕ)
    (sqrtA : α → α) (m_low m_high : α) (v w : List α) (t : SCState α) :
    ((RejectMinMax.finalPairs ⟨est, nmin, nmax⟩ v w :
        Multiset (α × α)) = ↑(v.zip w)) ∧
    (((sigmaClipBody est sqrtA m_low m_high t).l :
        Multiset (α × α)) = ↑t.l) ∧
    RejectNone.combine ⟨est⟩ v w =
      ((est v w).1, (est v w).2, v.length) :=
  ⟨Multiset.coe_eq_coe.mpr (List.perm_insertionSort _ _),
    Multiset.coe_eq_coe.mpr (sigmaClipBody_l_perm est sqrtA m_low m_high t),
    rfl⟩

/-! Order-statistics lemmas for RejectMinMax -/

/-- The value projection of the pair layout produced by `reject_min_max`
is the canonical sorted arrangement of the input value multiset: it is
sorted and a permutation of the values, hence equal to `Multiset.sort`. -/
theorem reject_min_max_fst_sorted (nmin nmax : ℕ) (v w : List α)
    (hw : w.length = v.length) :
    ((reject_min_max nmin nmax (v.zip w)).1.map Prod.fst) =
      Multiset.sort (· ≤ ·) (↑v : Multiset α) := by
  haveI hT : IsTotal (α × α) (fun a b => a.1 ≤ b.1) :=
    ⟨fun a b => le_total a.1 b.1⟩
  haveI hTr : IsTrans (α × α) (fun a b => a.1 ≤ b.1) :=
    ⟨fun _ _ _ hab hbc => le_trans hab hbc⟩
  have hsortedPairs : List.Sorted (fun a b : α × α => a.1 ≤ b.1)
      ((v.zip w).insertionSort (fun a b => a.1 ≤ b.1)) :=
    List.sorted_insertionSort _ _
  have hsorted : List.Sorted (· ≤ ·)
      (((v.zip w).insertionSort (fun a b => a.1 ≤ b.1)).map Prod.fst) :=
    List.Pairwise.map Prod.fst (fun _ _ hab => hab) hsortedPairs
  have hperm : (((v.zip w).insertionSort
      (fun a b => a.1 ≤ b.1)).map Prod.fst) ~ v := by
    have := (List.perm_insertionSort
      (fun a b : α × α => a.1 ≤ b.1) (v.zip w)).map Prod.fst
    rwa [List.map_fst_zip v w hw.ge] at this
  have hperm2 : (((v.zip w).insertionSort
      (fun a b => a.1 ≤ b.1)).map Prod.fst) ~
      Multiset.sort (· ≤ ·) (↑v : Multiset α) :=
    hperm.trans (Multiset.coe_eq_coe.mp
      (Multiset.sort_eq (· ≤ ·) (↑v : Multiset α))).symm
  exact List.eq_of_perm_of_sorted hperm2 hsorted
    (Multiset.sort_sorted (· ≤ ·) _)

/-- The pair layout of `reject_min_max` has the length of the zipped
input. -/
theorem reject_min_max_length (nmin nmax : ℕ) (l : List (α × α)) :
    (reject_min_max nmin nmax l).1.length = l.length :=
  (List.perm_insertionSort _ l).length_eq

/-- C5: for `nmin + nmax < |S|` (and weights paired one-to-one with
values), `RejectMinMax::combine` writes `|S| - nmin - nmax` into
`countUsed`; the kept values are the middle slice of the canonical sorted
arrangement of the input value multiset — so the discarded values are
exactly the `nmin` smallest and the `nmax` largest as a multiset,
independently of the input order (the right-hand sides depend on the
multiset `↑v` only) — and the estimator is applied to exactly the kept
samples. -/
theorem rejectMinMax_counts_and_tails (est : Estimator α) (nmin nmax : ℕ)
    (v w : List α) (hw : w.length = v.length)
    (hn : nmin + nmax < v.length) :
    (RejectMinMax.combine ⟨est, nmin, nmax⟩ v w).2.2 =
        v.length - nmin - nmax ∧
      (RejectMinMax.keptPairs ⟨est, nmin, nmax⟩ v w).map Prod.fst =
        ((Multiset.sort (· ≤ ·) (↑v : Multiset α)).drop nmin).take
          (v.length - nmin - nmax) ∧
      (↑v : Multiset α) =
        ↑((Multiset.sort (· ≤ ·) (↑v : Multiset α)).take nmin) +
          ↑((RejectMinMax.keptPairs ⟨est, nmin, nmax⟩ v w).map Prod.fst) +
          ↑((Multiset.sort (· ≤ ·) (↑v : Multiset α)).drop
            (v.length - nmax)) ∧
      (RejectMinMax.combine ⟨est, nmin, nmax⟩ v w).1 =
        (est ((RejectMinMax.keptPairs ⟨est, nmin, nmax⟩ v w).map Prod.fst)
          ((RejectMinMax.keptPairs ⟨est, nmin, nmax⟩ v w).map Prod.snd)).1 ∧
      (RejectMinMax.combine ⟨est, nmin, nmax⟩ v w).2.1 =
        (est ((RejectMinMax.keptPairs ⟨est, nmin, nmax⟩ v w).map Prod.fst)
          ((RejectMinMax.keptPairs ⟨est, nmin, nmax⟩ v w).map Prod.snd)).2 := by
  have hlen : (reject_min_max nmin nmax (v.zip w)).1.length = v.length := by
    rw [reject_min_max_length, List.length_zip, hw, min_self]
  have hfst := reject_min_max_fst_sorted nmin nmax v w hw
  have hcount : (reject_min_max nmin nmax (v.zip w)).2.2 -
      (reject_min_max nmin nmax (v.zip w)).2.1 =
      v.length - nmin - nmax := by
    show (reject_min_max nmin nmax (v.zip w)).1.length - nmax - nmin = _
    rw [hlen]
    omega
  have hkeptfst : (RejectMinMax.keptPairs ⟨est, nmin, nmax⟩ v w).map
      Prod.fst =
      ((Multiset.sort (· ≤ ·) (↑v : Multiset α)).drop nmin).take
        (v.length - nmin - nmax) := by
    show (((reject_min_max nmin nmax (v.zip w)).1.drop nmin).take
      ((reject_min_max nmin nmax (v.zip w)).1.length - nmax - nmin)).map
        Prod.fst = _
    rw [List.map_take, List.map_drop, hfst, hlen]
    congr 1
    omega
  refine ⟨hcount, hkeptfst, ?_, rfl, rfl⟩
  rw [hkeptfst]
  have hdecomp : Multiset.sort (· ≤ ·) (↑v : Multiset α) =
      (Multiset.sort (· ≤ ·) (↑v : Multiset α)).take nmin ++
        ((Multiset.sort (· ≤ ·) (↑v : Multiset α)).drop nmin).take
          (v.length - nmin - nmax) ++
        (Multiset.sort (· ≤ ·) (↑v : Multiset α)).drop
          (v.length - nmax) := by
    have h1 : (Multiset.sort (· ≤ ·) (↑v : Multiset α)).drop
        (v.length - nmax) =
        ((Multiset.sort (· ≤ ·) (↑v : Multiset α)).drop nmin).drop
          (v.length - nmin - nmax) := by
      rw [List.drop_drop]
      congr 1
      omega
    rw [h1, List.append_assoc, List.take_append_drop, List.take_append_drop]
  calc (↑v : Multiset α) = ↑(Multiset.sort (· ≤ ·) (↑v : Multiset α)) :=
        (Multiset.sort_eq (· ≤ ·) (↑v : Multiset α)).symm
    _ = _ := by
        conv_lhs => rw [hdecomp]
        rw [← Multiset.coe_add, ← Multiset.coe_add]

/-- Canonical sorted arrangement of the concrete value multiset
`{5, 3, 9, 1, 7}`. -/
theorem msort_example :
    Multiset.sort (· ≤ ·) (↑([5, 3, 9, 1, 7] : List ℚ) : Multiset ℚ) =
      [1, 3, 5, 7, 9] := by
  have hperm : Multiset.sort (· ≤ ·)
      (↑([5, 3, 9, 1, 7] : List ℚ) : Multiset ℚ) ~ [1, 3, 5, 7, 9] := by
    refine (Multiset.coe_eq_coe.mp
      (Multiset.sort_eq (· ≤ ·)
        (↑([5, 3, 9, 1, 7] : List ℚ) : Multiset ℚ))).trans ?_
    decide
  exact List.eq_of_perm_of_sorted hperm
    (Multiset.sort_sorted (· ≤ ·) _) (by norm_num [List.sorted_cons])

/-- C5 witness: the spec scenario `nmin = nmax = 1` on `{5, 3, 9, 1, 7}`:
countUsed is 3, the kept values are `{3, 5, 7}`, and the discarded values
are exactly the smallest (`1`) and the largest (`9`). -/
theorem rejectMinMax_counts_and_tails_witness :
    (1 + 1 < ([5, 3, 9, 1, 7] : List ℚ).length) ∧
    (RejectMinMax.combine ⟨meanVar, 1, 1⟩ [5, 3, 9, 1, 7]
      [1, 1, 1, 1, 1]).2.2 = 3 ∧
    (RejectMinMax.keptPairs ⟨meanVar, 1, 1⟩ [5, 3, 9, 1, 7]
      [1, 1, 1, 1, 1]).map Prod.fst = [3, 5, 7] ∧
    (↑([5, 3, 9, 1, 7] : List ℚ) : Multiset ℚ) =
      ↑([1] : List ℚ) + ↑([3, 5, 7] : List ℚ) + ↑([9] : List ℚ) := by
  obtain ⟨h1, h2, h3, _, _⟩ := rejectMinMax_counts_and_tails meanVar 1 1
    [5, 3, 9, 1, 7] [1, 1, 1, 1, 1] rfl (by norm_num)
  have h2' : (RejectMinMax.keptPairs ⟨meanVar, 1, 1⟩ [5, 3, 9, 1, 7]
      [1, 1, 1, 1, 1]).map Prod.fst = [3, 5, 7] := by
    rw [h2, msort_example]
    rfl
  refine ⟨by norm_num, h1, h2', ?_⟩
  rw [h2', msort_example] at h3
  exact h3

end Numina
